import Mathlib

/-!
Verification of the Massa swap smart contract
(`my-sc/assembly/contracts/main.ts`).

The contract is AssemblyScript: all amounts are `u64`, modelled here as `ℕ`
with every arithmetic operation reduced modulo `2 ^ 64`, and `u64` division
by zero modelled as `none` (a WebAssembly trap aborts the call).

Object references: `LiquidityPool` objects hold references to `Token`
objects that also live in the registry's `tokens` map, and `addToken`
allocates a fresh object each time (an overwrite leaves stale references
behind).  The registry model therefore uses an explicit heap (a list of
`Token` objects addressed by allocation index); a pool record stores the
heap indices of its two tokens.

AssemblyScript `Map#get` aborts on an absent key (the standard library
throws `Key does not exist`, which compiles to a trap); it does not return
`null`.  Every registry operation that looks a name up therefore traps
(`none`) when the key is absent, and the source's null guards
(`if (!tokenA || !tokenB)`, `token ? token.balance : 0`,
`if (!liquidityPool)`) are dead code: the trap fires before they run.
-/

/-- Modulus of AssemblyScript `u64` arithmetic. -/
def u64Mod : ℕ := 2 ^ 64

/-- `u64` division: WebAssembly `i64.div_u` traps when the divisor is 0,
modelled as `none`; otherwise truncating division. -/
def u64div (n d : ℕ) : Option ℕ :=
  if d = 0 then none else some (n / d)

/-- Wrapping `u64` subtraction (`a -= b` on unsigned 64-bit values). -/
def u64sub (a b : ℕ) : ℕ :=
  (a + (u64Mod - b % u64Mod)) % u64Mod

/-- `class Token`: a name plus a mutable `u64` balance
(the constructor initialises `balance` to 0). -/
structure Token where
  name : String
  balance : ℕ
deriving DecidableEq, Repr

/-- `class LiquidityPool` as a value: the two referenced `Token` objects and
the two `u64` reserves.  Used for the pool's pure computations, which only
read the token fields. -/
structure LiquidityPool where
  tokenA : Token
  tokenB : Token
  reserveA : ℕ
  reserveB : ℕ
deriving DecidableEq, Repr

/-- `LiquidityPool.calculatePrice`: returns 0 when `reserveB === 0`, else
`(reserveA * tokenB.balance) / reserveB` in `u64` arithmetic. -/
def LiquidityPool.calculatePrice (p : LiquidityPool) : ℕ :=
  if p.reserveB = 0 then 0
  else ((p.reserveA * p.tokenB.balance) % u64Mod) / p.reserveB

/-- `LiquidityPool.calculateSwapAmountOut`: the fee-adjusted constant-product
formula, step by step as in the source (each `u64` operation wraps modulo
`2 ^ 64`); the `toToken` parameter is accepted but never read, exactly as in
the source. -/
def LiquidityPool.calculateSwapAmountOut (p : LiquidityPool)
    (fromToken toToken : Token) (amountIn : ℕ) : Option ℕ :=
  let amountInWithFee := (amountIn * 997) % u64Mod
  let numerator := (amountInWithFee * p.reserveB) % u64Mod
  let denominator := ((fromToken.balance * 1000) % u64Mod + amountInWithFee) % u64Mod
  u64div numerator denominator

/-- Heap of allocated `Token` objects; a `Token` reference is an index. -/
abbrev Heap := List Token

/-- Dereference a token object (indices are valid by construction; the
default is never reached on states built by the registry operations). -/
def heapGet (h : Heap) (i : ℕ) : Token :=
  h.getD i ⟨"", 0⟩

/-- Write a token object's balance in place (its name is unchanged). -/
def heapSetBal (h : Heap) (i : ℕ) (b : ℕ) : Heap :=
  h.set i ⟨(heapGet h i).name, b⟩

/-- `token.balance += v` in `u64` arithmetic, on the heap. -/
def heapAdd (h : Heap) (i : ℕ) (v : ℕ) : Heap :=
  heapSetBal h i (((heapGet h i).balance + v) % u64Mod)

/-- A `LiquidityPool` object in the registry: heap indices of the two token
references plus the two reserves. -/
structure PoolRec where
  tokenA : ℕ
  tokenB : ℕ
  reserveA : ℕ
  reserveB : ℕ
deriving DecidableEq, Repr

/-- Read the referenced tokens to form the pool value the methods compute
with. -/
def poolVal (h : Heap) (p : PoolRec) : LiquidityPool :=
  ⟨heapGet h p.tokenA, heapGet h p.tokenB, p.reserveA, p.reserveB⟩

/-- Association-list lookup: first binding of the key, `none` when absent.
The registry operations propagate `none` as a trap, because AssemblyScript
`Map#get` aborts on an absent key. -/
def mapGet {α : Type} (l : List (String × α)) (k : String) : Option α :=
  match l with
  | [] => none
  | (k', v) :: rest => if k' = k then some v else mapGet rest k

/-- TypeScript `Map#set`: overwrite in place, appending when absent. -/
def mapSet {α : Type} (l : List (String × α)) (k : String) (v : α) :
    List (String × α) :=
  match l with
  | [] => [(k, v)]
  | (k', v') :: rest => if k' = k then (k, v) :: rest else (k', v') :: mapSet rest k v

/-- `LiquidityPool.addLiquidity`: `tokenA.balance += amountA`,
`tokenB.balance += amountB`, `reserveA += amountA`, `reserveB += amountB`,
each in `u64` arithmetic, sequentially (so aliased token references
compose). -/
def poolAddLiquidity (h : Heap) (p : PoolRec) (amountA amountB : ℕ) :
    Heap × PoolRec :=
  let h1 := heapAdd h p.tokenA amountA
  let h2 := heapAdd h1 p.tokenB amountB
  (h2, ⟨p.tokenA, p.tokenB, (p.reserveA + amountA) % u64Mod,
        (p.reserveB + amountB) % u64Mod⟩)

/-- The event string built by a successful swap. -/
def swapEventMsg (amount : ℕ) (fromName : String) (amountOut : ℕ)
    (toName : String) : String :=
  "Swapped " ++ toString amount ++ " " ++ fromName ++ " for " ++
    toString amountOut ++ " " ++ toName

/-- `LiquidityPool.swapTokens`: silent return when
`fromToken.balance < amount` or the computed output is 0; `none` when the
output computation traps; otherwise the four mutations plus the emitted
event.  Result: new heap, new pool record, emitted events. -/
def poolSwapTokens (h : Heap) (p : PoolRec) (fromId toId : ℕ) (amount : ℕ) :
    Option (Heap × PoolRec × List String) :=
  let fromToken := heapGet h fromId
  if fromToken.balance < amount then some (h, p, [])
  else
    match (poolVal h p).calculateSwapAmountOut fromToken (heapGet h toId) amount with
    | none => none
    | some amountOut =>
      if amountOut = 0 then some (h, p, [])
      else
        let h1 := heapSetBal h fromId (u64sub fromToken.balance amount)
        let h2 := heapAdd h1 toId amountOut
        some (h2,
          ⟨p.tokenA, p.tokenB, (p.reserveA + amount) % u64Mod,
            u64sub p.reserveB amountOut⟩,
          [swapEventMsg amount fromToken.name amountOut (heapGet h toId).name])

/-- `class SwapToken`: the registry.  `heap` is the object store backing the
`Token` references; `tokens` and `liquidityPools` are the two name-keyed
maps; `events` is the log of emitted events. -/
structure SwapToken where
  heap : Heap
  tokens : List (String × ℕ)
  liquidityPools : List (String × PoolRec)
  events : List String
deriving DecidableEq, Repr

/-- The constructor: both maps empty. -/
def SwapToken.new : SwapToken := ⟨[], [], [], []⟩

/-- The directional pool key `tokenAName-tokenBName`. -/
def poolKey (a b : String) : String := a ++ "-" ++ b

/-- `SwapToken.addToken`: allocate a fresh zero-balance `Token` object and
bind the name to it (overwriting any previous binding; the old object stays
on the heap, still referenced by any pool built from it). -/
def SwapToken.addToken (s : SwapToken) (name : String) : SwapToken :=
  { s with heap := s.heap ++ [⟨name, 0⟩],
           tokens := mapSet s.tokens name s.heap.length }

/-- `SwapToken.addLiquidityPool`: `Map#get` traps (`none`) when either
token name is unresolved (the source's `if (!tokenA || !tokenB)` guard is
unreachable); otherwise store a fresh pool under the directional key. -/
def SwapToken.addLiquidityPool (s : SwapToken) (tokenAName tokenBName : String)
    (reserveA reserveB : ℕ) : Option SwapToken :=
  match mapGet s.tokens tokenAName, mapGet s.tokens tokenBName with
  | some idA, some idB =>
    let p : PoolRec := ⟨idA, idB, reserveA, reserveB⟩
    let pools := mapSet s.liquidityPools (poolKey tokenAName tokenBName) p
    some { s with liquidityPools := pools }
  | _, _ => none

/-- `SwapToken.getTokenBalance`: the token's balance; `Map#get` traps
(`none`) when the name is unresolved, so the `token ? token.balance : 0`
fallback to 0 is unreachable. -/
def SwapToken.getTokenBalance (s : SwapToken) (tokenName : String) : Option ℕ :=
  match mapGet s.tokens tokenName with
  | some i => some (heapGet s.heap i).balance
  | none => none

/-- `SwapToken.calculatePrice`: delegate to the pool at the directional
key; `Map#get` traps (`none`) when the pool key is unresolved, so the
ternary's 0 fallback is unreachable. -/
def SwapToken.calculatePrice (s : SwapToken) (tokenAName tokenBName : String) :
    Option ℕ :=
  match mapGet s.liquidityPools (poolKey tokenAName tokenBName) with
  | some p => some (poolVal s.heap p).calculatePrice
  | none => none

/-- `SwapToken.addLiquidity`: `Map#get` traps (`none`) when the pool key is
unresolved; else delegate (the pool object is mutated in place, modelled by
writing the updated record back under its key). -/
def SwapToken.addLiquidity (s : SwapToken) (tokenAName tokenBName : String)
    (amountA amountB : ℕ) : Option SwapToken :=
  match mapGet s.liquidityPools (poolKey tokenAName tokenBName) with
  | none => none
  | some p =>
    let r := poolAddLiquidity s.heap p amountA amountB
    some { s with heap := r.1,
                  liquidityPools :=
                    mapSet s.liquidityPools (poolKey tokenAName tokenBName) r.2 }

/-- `SwapToken.swapTheToken`: resolve the pool by directional key and the
two token names independently; any `Map#get` on an absent key traps
(`none`, the `if (!liquidityPool || !fromToken || !toToken)` guard being
unreachable), as does the delegated swap's division by zero. -/
def SwapToken.swapTheToken (s : SwapToken) (tokenAName tokenBName
    fromTokenName toTokenName : String) (amount : ℕ) : Option SwapToken :=
  match mapGet s.liquidityPools (poolKey tokenAName tokenBName),
        mapGet s.tokens fromTokenName, mapGet s.tokens toTokenName with
  | some p, some fromId, some toId =>
    match poolSwapTokens s.heap p fromId toId amount with
    | none => none
    | some r =>
      some { s with heap := r.1,
                    liquidityPools :=
                      mapSet s.liquidityPools (poolKey tokenAName tokenBName) r.2.1,
                    events := s.events ++ r.2.2 }
  | _, _, _ => none

/-- One public registry operation (the read-only queries are included so
that claim C9's "any sequence of operations" is literal). -/
inductive Op where
  | addToken (name : String)
  | addLiquidityPool (a b : String) (reserveA reserveB : ℕ)
  | addLiquidity (a b : String) (amountA amountB : ℕ)
  | swapTheToken (a b f t : String) (amount : ℕ)
  | getTokenBalance (name : String)
  | calculatePrice (a b : String)
deriving DecidableEq, Repr

/-- Apply one operation; `none` means the call trapped.  A query that
traps aborts too; a query that succeeds leaves the state unchanged. -/
def applyOp (s : SwapToken) : Op → Option SwapToken
  | .addToken n => some (s.addToken n)
  | .addLiquidityPool a b rA rB => s.addLiquidityPool a b rA rB
  | .addLiquidity a b x y => s.addLiquidity a b x y
  | .swapTheToken a b f t amt => s.swapTheToken a b f t amt
  | .getTokenBalance n => (s.getTokenBalance n).map (fun _ => s)
  | .calculatePrice a b => (s.calculatePrice a b).map (fun _ => s)

/-- Run a sequence of operations, aborting at the first trap. -/
def runOps (ops : List Op) (s : SwapToken) : Option SwapToken :=
  match ops with
  | [] => some s
  | op :: rest =>
    match applyOp s op with
    | none => none
    | some s' => runOps rest s'

/-! ### Helper lemmas -/

theorem u64Mod_pos : 0 < u64Mod := by
  unfold u64Mod
  positivity

/-- Closed form of `calculateSwapAmountOut`: one modular reduction on the
numerator and one on the denominator. -/
theorem calcSwapAmountOut_eq (p : LiquidityPool) (fromToken toToken : Token)
    (amountIn : ℕ) :
    p.calculateSwapAmountOut fromToken toToken amountIn =
      u64div ((amountIn * 997 * p.reserveB) % u64Mod)
        ((fromToken.balance * 1000 + amountIn * 997) % u64Mod) := by
  show u64div ((amountIn * 997 % u64Mod) * p.reserveB % u64Mod)
      ((fromToken.balance * 1000 % u64Mod + amountIn * 997 % u64Mod) % u64Mod) = _
  rw [Nat.mod_mul_mod, ← Nat.add_mod]

/-! ### C1 -/

/-- The starting registry of the swap scenario: tokens `A` (balance 200) and
`B` (balance 400), pool under key `A-B` with reserves (100, 200). -/
def c1Start : SwapToken :=
  ⟨[⟨"A", 200⟩, ⟨"B", 400⟩], [("A", 0), ("B", 1)], [("A-B", ⟨0, 1, 100, 200⟩)], []⟩

/-- The registry after the scenario swap. -/
def c1Final : SwapToken :=
  ⟨[⟨"A", 100⟩, ⟨"B", 466⟩], [("A", 0), ("B", 1)], [("A-B", ⟨0, 1, 200, 134⟩)],
    ["Swapped 100 A for 66 B"]⟩

/-- C1: from tokenA.balance = 200, tokenB.balance = 400 and pool reserves
(100, 200), `swapTheToken("A","B","A","B",100)` computes
`amountOut = (100*997*200) / (200*1000 + 100*997) = 66` by truncating
division and ends with tokenA.balance = 100, tokenB.balance = 466,
reserveA = 200, reserveB = 134. -/
theorem swapTheToken_concrete_scenario :
    c1Start.swapTheToken "A" "B" "A" "B" 100 = some c1Final
    ∧ (poolVal c1Start.heap ⟨0, 1, 100, 200⟩).calculateSwapAmountOut
        (heapGet c1Start.heap 0) (heapGet c1Start.heap 1) 100 = some 66
    ∧ (100 * 997 * 200) / (200 * 1000 + 100 * 997) = 66
    ∧ c1Final.getTokenBalance "A" = some 100
    ∧ c1Final.getTokenBalance "B" = some 466
    ∧ mapGet c1Final.liquidityPools "A-B" = some ⟨0, 1, 200, 134⟩ := by
  refine ⟨by decide, by decide, by decide, by decide, by decide, by decide⟩

/-! ### C2 -/

/-- C2: for every pool state, every `fromToken` and every `amountIn`,
`calculateSwapAmountOut` returns exactly
`(amountIn * 997 * reserveB) / (fromToken.balance * 1000 + amountIn * 997)`
under truncating `u64` division (each product and sum reduced modulo
`2 ^ 64` as the `u64` operations do), with the pool's `reserveB` slot in the
numerator regardless of swap direction. -/
theorem calculateSwapAmountOut_closed_form (p : LiquidityPool)
    (fromToken toToken : Token) (amountIn : ℕ) :
    p.calculateSwapAmountOut fromToken toToken amountIn =
      u64div ((amountIn * 997 * p.reserveB) % u64Mod)
        ((fromToken.balance * 1000 + amountIn * 997) % u64Mod) :=
  calcSwapAmountOut_eq p fromToken toToken amountIn

/-! ### C10 -/

/-- C10: `calculateSwapAmountOut` never reads its `toToken` argument; its
result is determined solely by `amountIn`, `fromToken.balance` and the
pool's `reserveB`. -/
theorem swapAmountOut_toToken_irrelevant :
    (∀ (p : LiquidityPool) (fromToken t1 t2 : Token) (amountIn : ℕ),
      p.calculateSwapAmountOut fromToken t1 amountIn =
        p.calculateSwapAmountOut fromToken t2 amountIn)
    ∧ (∀ (p p' : LiquidityPool) (f f' t t' : Token) (amountIn : ℕ),
      f.balance = f'.balance → p.reserveB = p'.reserveB →
      p.calculateSwapAmountOut f t amountIn =
        p'.calculateSwapAmountOut f' t' amountIn) := by
  constructor
  · intro p fromToken t1 t2 amountIn
    rfl
  · intro p p' f f' t t' amountIn hbal hres
    unfold LiquidityPool.calculateSwapAmountOut
    rw [hbal, hres]

/-- Witness for C10 at concrete inputs. -/
theorem swapAmountOut_toToken_irrelevant_witness :
    (LiquidityPool.mk ⟨"A", 0⟩ ⟨"B", 0⟩ 100 200).calculateSwapAmountOut
        ⟨"A", 200⟩ ⟨"B", 400⟩ 100 =
      (LiquidityPool.mk ⟨"X", 7⟩ ⟨"Y", 9⟩ 55 200).calculateSwapAmountOut
        ⟨"Z", 200⟩ ⟨"W", 1⟩ 100 :=
  swapAmountOut_toToken_irrelevant.2 _ _ _ _ _ _ 100 rfl rfl

/-! ### C6 -/

/-- The registry freshly populated with tokens `A`, `B` (balances 0) and a
pool `A-B` with reserves (100, 200). -/
def c6State : SwapToken :=
  ⟨[⟨"A", 0⟩, ⟨"B", 0⟩], [("A", 0), ("B", 1)], [("A-B", ⟨0, 1, 100, 200⟩)], []⟩

/-- C6: `calculatePrice` returns `(reserveA * tokenB.balance) / reserveB`
under truncating `u64` division, 0 when `reserveB = 0`; and on the registry
freshly populated with tokens `A`, `B` (balances 0) and pool reserves
(100, 200), `calculatePrice("A","B") = (100 * 0) / 200 = 0`. -/
theorem calculatePrice_spec :
    (∀ p : LiquidityPool, p.reserveB ≠ 0 →
      p.calculatePrice = ((p.reserveA * p.tokenB.balance) % u64Mod) / p.reserveB)
    ∧ (∀ p : LiquidityPool, p.reserveB = 0 → p.calculatePrice = 0)
    ∧ ((SwapToken.new.addToken "A").addToken "B").addLiquidityPool
        "A" "B" 100 200 = some c6State
    ∧ c6State.calculatePrice "A" "B" = some 0 := by
  refine ⟨?_, ?_, by decide, by decide⟩
  · intro p hp
    simp [LiquidityPool.calculatePrice, hp]
  · intro p hp
    simp [LiquidityPool.calculatePrice, hp]

/-- Witness for C6 at concrete pools. -/
theorem calculatePrice_spec_witness :
    (LiquidityPool.mk ⟨"A", 0⟩ ⟨"B", 6⟩ 100 200).calculatePrice =
        ((100 * 6) % u64Mod) / 200
    ∧ (LiquidityPool.mk ⟨"A", 0⟩ ⟨"B", 6⟩ 100 0).calculatePrice = 0 :=
  ⟨calculatePrice_spec.1 ⟨⟨"A", 0⟩, ⟨"B", 6⟩, 100, 200⟩ (by decide),
   calculatePrice_spec.2.1 ⟨⟨"A", 0⟩, ⟨"B", 6⟩, 100, 0⟩ rfl⟩

/-! ### C5 and C3 -/

/-- C5 (code bug evaluation): with only token `A` registered, every lookup
of the unresolved-name scenario traps — `getTokenBalance("Nonexistent")`,
`calculatePrice("A","Nonexistent")` and `swapTheToken` with an unresolved
pool key all abort on `Map#get` instead of returning the claimed 0
sentinel / silent no-op (the `token ? token.balance : 0` and null-guard
branches that would produce those results are unreachable). -/
theorem unresolved_names_trap_eval :
    (SwapToken.new.addToken "A").getTokenBalance "Nonexistent" = none
    ∧ (SwapToken.new.addToken "A").calculatePrice "A" "Nonexistent" = none
    ∧ (SwapToken.new.addToken "A").swapTheToken "A" "Nonexistent" "A" "A" 5 =
        none :=
  ⟨by decide, by decide, by decide⟩

/-- C3 (code bug evaluation): the two pool-level failure modes are silent
no-ops exactly as claimed — insufficient balance and zero computed output
leave the heap, the pool and the event log unchanged — but an unresolved
registry lookup is not: from the swap-scenario state,
`swapTheToken("A","C","A","B",100)` (the shape of the repository's
non-existing-pool test case) traps on `Map#get` of the absent key `A-C`
instead of silently leaving the registry unchanged. -/
theorem swap_failure_eval :
    poolSwapTokens [⟨"A", 5⟩] ⟨0, 0, 10, 10⟩ 0 0 7 =
        some ([⟨"A", 5⟩], ⟨0, 0, 10, 10⟩, [])
    ∧ poolSwapTokens [⟨"A", 5⟩] ⟨0, 0, 10, 0⟩ 0 0 3 =
        some ([⟨"A", 5⟩], ⟨0, 0, 10, 0⟩, [])
    ∧ c1Start.swapTheToken "A" "C" "A" "B" 100 = none :=
  ⟨by decide, by decide, by decide⟩

/-! ### C4 -/

/-- C4 counterexample: from the freshly initialised registry (tokens `A`,
`B` with balance 0, pool reserves (100, 200)), the reachable call
`swapTheToken("A","B","A","B",0)` passes the insufficient-balance guard
(`0 < 0` is false) and reaches the `u64` division with denominator
`0 * 1000 + 0 * 997 = 0`, which traps instead of being well-defined. -/
theorem swap_divzero_trap_cex :
    runOps [Op.addToken "A", Op.addToken "B", Op.addLiquidityPool "A" "B" 100 200,
      Op.swapTheToken "A" "B" "A" "B" 0] SwapToken.new = none := by
  decide

/-- C4 amended: the swap path is not total; it traps exactly when the
insufficient-balance guard passes and the `u64` denominator
`fromToken.balance * 1000 + amount * 997` (mod `2 ^ 64`) is zero — in
particular at `fromToken.balance = 0`, `amount = 0` — and on every input
with a nonzero denominator it returns without trapping. -/
theorem poolSwapTokens_trap_iff (h : Heap) (p : PoolRec)
    (fromId toId amount : ℕ) :
    poolSwapTokens h p fromId toId amount = none ↔
      (¬ (heapGet h fromId).balance < amount ∧
        ((heapGet h fromId).balance * 1000 + amount * 997) % u64Mod = 0) := by
  unfold poolSwapTokens
  dsimp only
  rw [calcSwapAmountOut_eq]
  by_cases hg : (heapGet h fromId).balance < amount
  · simp [hg]
  · by_cases hd : ((heapGet h fromId).balance * 1000 + amount * 997) % u64Mod = 0
    · simp [hg, hd, u64div, poolVal]
    · simp only [if_neg hg, u64div, poolVal]
      rw [if_neg hd]
      simp only [hg, hd]
      split <;> simp

/-! ### C7 -/

/-- C7 counterexample: with `fromToken.balance = 2` and `reserveB = 2 ^ 63`,
raising `amountIn` from 1 to 2 makes the `u64` numerator
`2 * 997 * 2 ^ 63` wrap to 0, so the output drops from a large value to 0:
`calculateSwapAmountOut` is not monotone in `amountIn` on the `u64`
arithmetic of the code. -/
theorem swapAmountOut_not_monotone_cex :
    (1 : ℕ) ≤ 2
    ∧ (LiquidityPool.mk ⟨"A", 2⟩ ⟨"B", 0⟩ 0 (2 ^ 63)).calculateSwapAmountOut
        ⟨"A", 2⟩ ⟨"B", 0⟩ 2 = some 0
    ∧ ¬ ((LiquidityPool.mk ⟨"A", 2⟩ ⟨"B", 0⟩ 0 (2 ^ 63)).calculateSwapAmountOut
          ⟨"A", 2⟩ ⟨"B", 0⟩ 1).getD 0 ≤
        ((LiquidityPool.mk ⟨"A", 2⟩ ⟨"B", 0⟩ 0 (2 ^ 63)).calculateSwapAmountOut
          ⟨"A", 2⟩ ⟨"B", 0⟩ 2).getD 0 :=
  ⟨by decide, by decide, by decide⟩

/-- Floor division monotonicity of the fee formula in exact arithmetic:
`n1 * R / (D + n1)` is non-decreasing in `n1`. -/
theorem div_mono_aux (R D n1 n2 : ℕ) (hn : n1 ≤ n2) (hd1 : 0 < D + n1) :
    n1 * R / (D + n1) ≤ n2 * R / (D + n2) := by
  have hd2 : 0 < D + n2 := lt_of_lt_of_le hd1 (by omega)
  rw [Nat.le_div_iff_mul_le hd2]
  refine Nat.le_of_mul_le_mul_right ?_ hd1
  have h1 : n1 * R / (D + n1) * (D + n1) ≤ n1 * R := Nat.div_mul_le_self _ _
  have h2 : n1 * R * D ≤ n2 * R * D := by
    rw [mul_assoc, mul_assoc]
    exact mul_le_mul_right' hn (R * D)
  have h3 : n1 * R * n2 = n2 * R * n1 := by ring
  calc n1 * R / (D + n1) * (D + n2) * (D + n1)
      = n1 * R / (D + n1) * (D + n1) * (D + n2) := by ring
    _ ≤ n1 * R * (D + n2) := mul_le_mul_right' h1 _
    _ = n1 * R * D + n1 * R * n2 := by ring
    _ ≤ n2 * R * D + n2 * R * n1 := Nat.add_le_add h2 (le_of_eq h3)
    _ = n2 * R * (D + n1) := by ring

/-- C7 amended: `calculateSwapAmountOut` is monotonically non-decreasing in
`amountIn` for fixed `fromToken.balance` and reserves, provided none of the
intermediate `u64` computations of the larger input overflows
(`amountIn * 997 * reserveB < 2 ^ 64` and
`fromToken.balance * 1000 + amountIn * 997 < 2 ^ 64`) and the denominator
is nonzero; wraparound breaks monotonicity on the code as written. -/
theorem swapAmountOut_monotone_no_overflow (p : LiquidityPool) (f t : Token)
    (a1 a2 : ℕ) (h12 : a1 ≤ a2)
    (hnum : a2 * 997 * p.reserveB < u64Mod)
    (hden : f.balance * 1000 + a2 * 997 < u64Mod)
    (hpos : 0 < f.balance * 1000 + a1 * 997) :
    (p.calculateSwapAmountOut f t a1).getD 0 ≤
      (p.calculateSwapAmountOut f t a2).getD 0 := by
  rw [calcSwapAmountOut_eq, calcSwapAmountOut_eq]
  have h997 : a1 * 997 ≤ a2 * 997 := mul_le_mul_right' h12 997
  have hnum1 : a1 * 997 * p.reserveB ≤ a2 * 997 * p.reserveB :=
    mul_le_mul_right' h997 _
  have hd1lt : f.balance * 1000 + a1 * 997 < u64Mod := by omega
  rw [Nat.mod_eq_of_lt hnum, Nat.mod_eq_of_lt (lt_of_le_of_lt hnum1 hnum),
      Nat.mod_eq_of_lt hden, Nat.mod_eq_of_lt hd1lt]
  have hd2pos : 0 < f.balance * 1000 + a2 * 997 := by omega
  unfold u64div
  rw [if_neg (Nat.pos_iff_ne_zero.mp hpos), if_neg (Nat.pos_iff_ne_zero.mp hd2pos)]
  simp only [Option.getD_some]
  exact div_mono_aux p.reserveB (f.balance * 1000) (a1 * 997) (a2 * 997) h997 hpos

/-- Witness for the amended C7 on the scenario pool: inputs 50 and 100 give
outputs 39 and 66. -/
theorem swapAmountOut_monotone_no_overflow_witness :
    ((LiquidityPool.mk ⟨"A", 0⟩ ⟨"B", 0⟩ 100 200).calculateSwapAmountOut
        ⟨"A", 200⟩ ⟨"B", 0⟩ 50).getD 0 ≤
      ((LiquidityPool.mk ⟨"A", 0⟩ ⟨"B", 0⟩ 100 200).calculateSwapAmountOut
        ⟨"A", 200⟩ ⟨"B", 0⟩ 100).getD 0 :=
  swapAmountOut_monotone_no_overflow (LiquidityPool.mk ⟨"A", 0⟩ ⟨"B", 0⟩ 100 200)
    ⟨"A", 200⟩ ⟨"B", 0⟩ 50 100 (by decide) (by decide) (by decide) (by decide)

/-! ### C8 -/

/-- Pointwise description of `heapAdd`. -/
theorem heapAdd_getElem (h : Heap) (i v n : ℕ) :
    (heapAdd h i v)[n]? = if n = i
      then (h[n]?).map (fun t => ⟨t.name, (t.balance + v) % u64Mod⟩)
      else h[n]? := by
  unfold heapAdd heapSetBal heapGet
  by_cases hn : n = i
  · subst hn
    by_cases hi : n < h.length
    · rw [if_pos rfl, List.getElem?_set_self hi]
      have ht : h[n]? = some h[n] := List.getElem?_eq_getElem hi
      rw [ht]
      simp [List.getD_eq_getElem?_getD, ht]
    · have hle := Nat.le_of_not_lt hi
      rw [List.set_eq_of_length_le hle, if_pos rfl]
      have hnone : h[n]? = none := List.getElem?_eq_none hle
      simp [hnone]
  · rw [if_neg hn, List.getElem?_set_ne (fun hh => hn hh.symm)]

/-- Two sequential pairs of balance increments fuse into one pair (covers
aliased token references as well). -/
theorem heapAdd_chain (h : Heap) (iA iB x y p q : ℕ) :
    heapAdd (heapAdd (heapAdd (heapAdd h iA x) iB y) iA p) iB q =
      heapAdd (heapAdd h iA (x + p)) iB (y + q) := by
  apply List.ext_getElem?
  intro n
  simp only [heapAdd_getElem]
  by_cases hA : n = iA
  · subst hA
    by_cases hB : n = iB
    · subst hB
      simp only [if_pos rfl]
      cases h[n]? <;> simp [Nat.mod_add_mod] <;> congr 1 <;> omega
    · simp only [if_pos rfl, if_neg hB]
      cases h[n]? <;> simp [Nat.mod_add_mod] <;> congr 1 <;> omega
  · by_cases hB : n = iB
    · subst hB
      simp only [if_pos rfl, if_neg hA]
      cases h[n]? <;> simp [Nat.mod_add_mod] <;> congr 1 <;> omega
    · simp only [if_neg hA, if_neg hB]

/-- The two pairs of balance increments commute. -/
theorem heapAdd_chain_comm (h : Heap) (iA iB x y p q : ℕ) :
    heapAdd (heapAdd (heapAdd (heapAdd h iA x) iB y) iA p) iB q =
      heapAdd (heapAdd (heapAdd (heapAdd h iA p) iB q) iA x) iB y := by
  apply List.ext_getElem?
  intro n
  simp only [heapAdd_getElem]
  by_cases hA : n = iA
  · subst hA
    by_cases hB : n = iB
    · subst hB
      simp only [if_pos rfl]
      cases h[n]? <;> simp [Nat.mod_add_mod] <;> congr 1 <;> omega
    · simp only [if_pos rfl, if_neg hB]
      cases h[n]? <;> simp [Nat.mod_add_mod] <;> congr 1 <;> omega
  · by_cases hB : n = iB
    · subst hB
      simp only [if_pos rfl, if_neg hA]
      cases h[n]? <;> simp [Nat.mod_add_mod] <;> congr 1 <;> omega
    · simp only [if_neg hA, if_neg hB]

/-- C8: `addLiquidity` is additive and commutative across repeated calls:
`addLiquidity(x,y)` then `addLiquidity(p,q)` gives the same final token
balances (heap) and reserves as the single call `addLiquidity(x+p, y+q)`,
and the two calls commute. -/
theorem addLiquidity_additive_commutative (h : Heap) (pr : PoolRec)
    (x y p q : ℕ) :
    poolAddLiquidity (poolAddLiquidity h pr x y).1 (poolAddLiquidity h pr x y).2 p q =
      poolAddLiquidity h pr (x + p) (y + q)
    ∧ poolAddLiquidity (poolAddLiquidity h pr x y).1 (poolAddLiquidity h pr x y).2 p q =
      poolAddLiquidity (poolAddLiquidity h pr p q).1 (poolAddLiquidity h pr p q).2 x y := by
  constructor
  · unfold poolAddLiquidity
    dsimp only
    simp only [Prod.mk.injEq]
    refine ⟨heapAdd_chain h pr.tokenA pr.tokenB x y p q, ?_⟩
    simp only [PoolRec.mk.injEq, Nat.mod_add_mod]
    refine ⟨trivial, trivial, ?_, ?_⟩ <;> (congr 1; omega)
  · unfold poolAddLiquidity
    dsimp only
    simp only [Prod.mk.injEq]
    refine ⟨heapAdd_chain_comm h pr.tokenA pr.tokenB x y p q, ?_⟩
    simp only [PoolRec.mk.injEq, Nat.mod_add_mod]
    refine ⟨trivial, trivial, ?_, ?_⟩ <;> (congr 1; omega)

/-! ### C9 -/

/-- Every token object on the heap has its balance in `u64` range. -/
def heapWF (h : Heap) : Prop := ∀ t ∈ h, t.balance < u64Mod

theorem heapWF_setBal (h : Heap) (i b : ℕ) (hw : heapWF h) (hb : b < u64Mod) :
    heapWF (heapSetBal h i b) := by
  intro t ht
  unfold heapSetBal at ht
  rcases List.mem_or_eq_of_mem_set ht with h1 | h1
  · exact hw t h1
  · rw [h1]
    exact hb

theorem heapWF_heapAdd (h : Heap) (i v : ℕ) (hw : heapWF h) :
    heapWF (heapAdd h i v) :=
  heapWF_setBal h i _ hw (Nat.mod_lt _ u64Mod_pos)

theorem poolSwapTokens_wf (h : Heap) (p : PoolRec) (fromId toId amt : ℕ)
    (r : Heap × PoolRec × List String) (hw : heapWF h)
    (hr : poolSwapTokens h p fromId toId amt = some r) : heapWF r.1 := by
  unfold poolSwapTokens at hr
  dsimp only at hr
  by_cases hg : (heapGet h fromId).balance < amt
  · rw [if_pos hg] at hr
    cases hr
    exact hw
  · rw [if_neg hg] at hr
    cases hcalc : (poolVal h p).calculateSwapAmountOut (heapGet h fromId) (heapGet h toId) amt with
    | none =>
      rw [hcalc] at hr
      simp at hr
    | some out =>
      rw [hcalc] at hr
      dsimp only at hr
      by_cases hz : out = 0
      · rw [if_pos hz] at hr
        cases hr
        exact hw
      · rw [if_neg hz] at hr
        cases hr
        exact heapWF_heapAdd _ _ _
          (heapWF_setBal _ _ _ hw (Nat.mod_lt _ u64Mod_pos))

theorem applyOp_wf (s s' : SwapToken) (op : Op) (hw : heapWF s.heap)
    (h : applyOp s op = some s') : heapWF s'.heap := by
  cases op with
  | addToken n =>
    cases h
    intro t ht
    unfold SwapToken.addToken at ht
    dsimp only at ht
    rcases List.mem_append.mp ht with h1 | h1
    · exact hw t h1
    · rw [List.mem_singleton.mp h1]
      exact u64Mod_pos
  | addLiquidityPool a b rA rB =>
    unfold applyOp at h
    dsimp only at h
    unfold SwapToken.addLiquidityPool at h
    cases ha : mapGet s.tokens a with
    | none =>
      rw [ha] at h
      simp at h
    | some idA =>
      rw [ha] at h
      cases hb : mapGet s.tokens b with
      | none =>
        rw [hb] at h
        simp at h
      | some idB =>
        rw [hb] at h
        dsimp only at h
        cases h
        exact hw
  | addLiquidity a b x y =>
    unfold applyOp at h
    dsimp only at h
    unfold SwapToken.addLiquidity at h
    cases hp : mapGet s.liquidityPools (poolKey a b) with
    | none =>
      rw [hp] at h
      simp at h
    | some pr =>
      rw [hp] at h
      dsimp only at h
      cases h
      unfold poolAddLiquidity
      dsimp only
      exact heapWF_heapAdd _ _ _ (heapWF_heapAdd _ _ _ hw)
  | swapTheToken a b f t amt =>
    unfold applyOp at h
    dsimp only at h
    unfold SwapToken.swapTheToken at h
    cases hp : mapGet s.liquidityPools (poolKey a b) with
    | none =>
      rw [hp] at h
      simp at h
    | some pr =>
      rw [hp] at h
      cases hf : mapGet s.tokens f with
      | none =>
        rw [hf] at h
        simp at h
      | some fromId =>
        rw [hf] at h
        cases ht : mapGet s.tokens t with
        | none =>
          rw [ht] at h
          simp at h
        | some toId =>
          rw [ht] at h
          dsimp only at h
          cases hr : poolSwapTokens s.heap pr fromId toId amt with
          | none =>
            rw [hr] at h
            simp at h
          | some r =>
            rw [hr] at h
            dsimp only at h
            cases h
            exact poolSwapTokens_wf s.heap pr fromId toId amt r hw hr
  | getTokenBalance n =>
    unfold applyOp at h
    dsimp only at h
    cases hg : s.getTokenBalance n with
    | none =>
      rw [hg] at h
      simp at h
    | some v =>
      rw [hg] at h
      simp at h
      subst h
      exact hw
  | calculatePrice a b =>
    unfold applyOp at h
    dsimp only at h
    cases hg : s.calculatePrice a b with
    | none =>
      rw [hg] at h
      simp at h
    | some v =>
      rw [hg] at h
      simp at h
      subst h
      exact hw

theorem runOps_wf (ops : List Op) (s s' : SwapToken) (hw : heapWF s.heap)
    (h : runOps ops s = some s') : heapWF s'.heap := by
  induction ops generalizing s with
  | nil =>
    cases h
    exact hw
  | cons op rest ih =>
    unfold runOps at h
    cases hop : applyOp s op with
    | none =>
      rw [hop] at h
      simp at h
    | some s1 =>
      rw [hop] at h
      exact ih s1 (applyOp_wf s s1 op hw hop) h

/-- C9: after every sequence of registry operations from the fresh
registry, every token object ever allocated (current or stale) has
`0 ≤ balance < 2 ^ 64`; and the only subtraction from a token balance is
guarded by the sufficiency check — whenever `swapTokens` changes the heap at
all, `amount ≤ fromToken.balance` held, so the subtraction cannot
underflow. -/
theorem balances_nonneg :
    (∀ (ops : List Op) (s' : SwapToken), runOps ops SwapToken.new = some s' →
      ∀ t ∈ s'.heap, 0 ≤ (t.balance : ℤ) ∧ t.balance < u64Mod)
    ∧ (∀ (h : Heap) (p : PoolRec) (fromId toId amount : ℕ)
        (r : Heap × PoolRec × List String),
      poolSwapTokens h p fromId toId amount = some r →
      r.1 = h ∨ amount ≤ (heapGet h fromId).balance) := by
  constructor
  · intro ops s' hrun t ht
    have hw : heapWF s'.heap :=
      runOps_wf ops SwapToken.new s' (fun t ht => absurd ht (List.not_mem_nil t)) hrun
    exact ⟨Int.natCast_nonneg _, hw t ht⟩
  · intro h p fromId toId amount r hr
    by_cases hg : (heapGet h fromId).balance < amount
    · unfold poolSwapTokens at hr
      dsimp only at hr
      rw [if_pos hg] at hr
      cases hr
      exact Or.inl rfl
    · exact Or.inr (Nat.le_of_not_lt hg)

/-- Witness for C9: the token allocated by `addToken "A"`. -/
theorem balances_nonneg_witness :
    0 ≤ ((Token.mk "A" 0).balance : ℤ) ∧ (Token.mk "A" 0).balance < u64Mod :=
  balances_nonneg.1 [Op.addToken "A"] (SwapToken.new.addToken "A") rfl ⟨"A", 0⟩ (by decide)
